import Mathlib

/-!
Verification development for the `multi-process-logger` repository
(`logger-client/src/lib.rs`, `logger-server/src/main.rs`).

The client serializes a `#[repr(C)] struct LogData` by `transmute` into a byte
array and appends the UTF-8 message bytes (`Logger::log`, lib.rs:76-92).  The
server reads `size_of::<LogData>()` bytes, `transmute`s them back, reads
`length` payload bytes, validates UTF-8 and stores the record
(`handle_stream`, main.rs:367-436).

Both binaries target 64-bit little-endian Linux (`nix`, unix sockets), where
the `repr(C)` layout of

    struct LogData { secs: u64, nanos: u32, pid: Pid (i32),
                     pthread: Pthread (u64), length: usize (u64),
                     level: log::Level (repr(usize), 1..=5) }

is 40 bytes with no padding: secs at offset 0 (8 bytes), nanos at 8 (4),
pid at 12 (4), pthread at 16 (8), length at 24 (8), level at 32 (8), every
field little-endian.  The embedding below models bytes as `Nat` values < 256
and machine integers as `Nat`/`Int` with explicit bounds.
-/

namespace MPLogger

/-- Little-endian serialization of `v` into `w` bytes (low byte first),
truncating to `w` bytes exactly as a machine store of a `w`-byte field does. -/
def toLE : Nat → Nat → List Nat
  | 0, _ => []
  | w + 1, v => v % 256 :: toLE w (v / 256)

/-- Little-endian read of a byte list as an unsigned integer. -/
def fromLE : List Nat → Nat
  | [] => 0
  | b :: bs => b + 256 * fromLE bs
/-- Header size on the implemented target: `size_of::<LogData>()` = 40 bytes
(not the 33 bytes of a packed single-byte-level layout). -/
def headerSize : Nat := 40

/-- The fixed-size header record, `LogData` in both lib.rs:52-60 and
main.rs:343-351.  `pid` is the signed 32-bit `nix::unistd::Pid`; `pthread`
and `length` are 64-bit; `level` is the `usize` discriminant of `log::Level`
(1 = Error .. 5 = Trace). -/
structure LogData where
  secs : Nat
  nanos : Nat
  pid : Int
  pthread : Nat
  length : Nat
  level : Nat
deriving Repr, DecidableEq

/-- Two's-complement little-endian bytes of the `i32` process id. -/
def pidBytes (p : Int) : List Nat := toLE 4 (p % 4294967296).toNat

/-- Interpretation of an unsigned 32-bit value as a signed `i32`. -/
def decodePid (n : Nat) : Int :=
  if n < 2147483648 then (n : Int) else (n : Int) - 4294967296

/-- Byte image of the `transmute` of `LogData` in `Logger::log` (lib.rs:84-85):
each field stored little-endian at its `repr(C)` offset, 40 bytes total. -/
def encodeHeader (d : LogData) : List Nat :=
  toLE 8 d.secs ++ toLE 4 d.nanos ++ pidBytes d.pid ++ toLE 8 d.pthread ++
    toLE 8 d.length ++ toLE 8 d.level

/-- Full wire image of one record: header bytes then message bytes
(lib.rs:87-90). -/
def encode (d : LogData) (msg : List Nat) : List Nat := encodeHeader d ++ msg

/-- Fields within the width of their machine type (u64 / u32 / i32 / u64 /
usize / usize). -/
def InRange (d : LogData) : Prop :=
  d.secs < 18446744073709551616 ∧ d.nanos < 4294967296 ∧
    -2147483648 ≤ d.pid ∧ d.pid < 2147483648 ∧
    d.pthread < 18446744073709551616 ∧ d.length < 18446744073709551616 ∧
    d.level < 18446744073709551616

instance (d : LogData) : Decidable (InRange d) := by
  unfold InRange; infer_instance
/-- Continuation byte of a UTF-8 sequence: `0x80..0xBF`. -/
def utf8Cont (b : Nat) : Bool := 128 ≤ b && b < 192

/-- UTF-8 validity of a byte sequence, as checked by `std::str::from_utf8`
(main.rs:387): rejects overlong encodings, surrogates and values above
U+10FFFF. -/
def utf8Valid : List Nat → Bool
  | [] => true
  | b :: rest =>
    if b < 128 then utf8Valid rest
    else if b < 194 then false
    else if b < 224 then
      match rest with
      | c :: r => utf8Cont c && utf8Valid r
      | [] => false
    else if b < 240 then
      match rest with
      | c1 :: c2 :: r =>
        (if b = 224 then 160 ≤ c1 && c1 < 192
         else if b = 237 then 128 ≤ c1 && c1 < 160
         else utf8Cont c1) && utf8Cont c2 && utf8Valid r
      | _ => false
    else if b < 245 then
      match rest with
      | c1 :: c2 :: c3 :: r =>
        (if b = 240 then 144 ≤ c1 && c1 < 192
         else if b = 244 then 128 ≤ c1 && c1 < 144
         else utf8Cont c1) && utf8Cont c2 && utf8Cont c3 && utf8Valid r
      | _ => false
    else false

/-- Decode of the fixed-size header: the server's `transmute` of the 40-byte
array back into `LogData` (main.rs:375).  A discriminant outside 1..5 has no
defined `log::Level` value (the `transmute` would be undefined behavior), so
decoding is modelled as failing there; no other field is inspected — the
source performs no range validation whatsoever. -/
def decodeHeader (bs : List Nat) : Option LogData :=
  if bs.length = headerSize then
    let secs := fromLE (bs.take 8)
    let r1 := bs.drop 8
    let nanos := fromLE (r1.take 4)
    let r2 := r1.drop 4
    let pidRaw := fromLE (r2.take 4)
    let r3 := r2.drop 4
    let pthread := fromLE (r3.take 8)
    let r4 := r3.drop 8
    let length := fromLE (r4.take 8)
    let levelN := fromLE (r4.drop 8)
    if 1 ≤ levelN ∧ levelN ≤ 5 then
      some ⟨secs, nanos, decodePid pidRaw, pthread, length, levelN⟩
    else none
  else none

/-- Processing of one record from the stream by `handle_stream`
(main.rs:367-387): read 40 header bytes, `transmute`, read `length` payload
bytes (blocking until available), validate UTF-8 (`unwrap` panics otherwise,
modelled as `none`). -/
def decodeRecord (bs : List Nat) : Option (LogData × List Nat) :=
  match decodeHeader (bs.take headerSize) with
  | none => none
  | some d =>
    let rest := bs.drop headerSize
    if d.length ≤ rest.length then
      let msg := rest.take d.length
      if utf8Valid msg then some (d, msg) else none
    else none
/-- One stored log entry (`struct Log`, main.rs:55-59).  `Duration::new` in
main.rs:392 normalizes an overflowing nanosecond count by carrying whole
seconds, so the stored time is kept as normalized seconds/nanos. -/
structure Log where
  time_secs : Nat
  time_nanos : Nat
  level : Nat
  message : List Nat
deriving Repr, DecidableEq

/-- One thread lane (`struct Thread`, main.rs:50-53). -/
structure Thread where
  id : Nat
  log : List Log
deriving Repr, DecidableEq

/-- One process group (`struct Process`, main.rs:43-48).  `thread_id_map`
models the `HashMap<Pthread, usize>` as an association list; the source only
ever inserts a key that is absent, so a front insertion has the same lookup
semantics. -/
structure Process where
  id : Int
  thread_id_map : List (Nat × Nat)
  threads : List Thread
deriving Repr, DecidableEq

/-- The application state (`struct App`, main.rs:61-67).  `process` and
`thread` model the two `ListState` selections (`selected()` is the stored
`Option<usize>`), `log` the scroll offset. -/
structure App where
  process_id_map : List (Int × Nat)
  processes : List Process
  process : Option Nat
  thread : Option Nat
  log : Nat
deriving Repr, DecidableEq

/-- Lookup in an association list modelling `HashMap::get`. -/
def lookupA {α β : Type} [DecidableEq α] (k : α) : List (α × β) → Option β
  | [] => none
  | (k₀, v) :: rest => if k₀ = k then some v else lookupA k rest

/-- Initial state (`App::new`, main.rs:69-77). -/
def App.new : App := ⟨[], [], none, none, 0⟩

/-- Store update for one record inside an existing process
(main.rs:405-419): push onto the lane if the thread is known, otherwise
insert a fresh lane holding just this entry at the end of `threads`. -/
def ingestThread (tid : Nat) (l : Log) (p : Process) : Process :=
  match lookupA tid p.thread_id_map with
  | some j =>
    match p.threads[j]? with
    | some t => { p with threads := p.threads.set j { t with log := t.log ++ [l] } }
    | none => p
  | none =>
    { p with
      thread_id_map := (tid, p.threads.length) :: p.thread_id_map,
      threads := p.threads ++ [⟨tid, [l]⟩] }

/-- Store update for one record (main.rs:399-431): route to the existing
process group, or append a fresh group holding one lane with one entry.  The
`some j / none` fallthrough in the known-process branch marks an index the
source would reach only through a corrupted map (a panic); it is unreachable
whenever the store is well formed. -/
def ingestStore (pid : Int) (tid : Nat) (l : Log) (app : App) : App :=
  match lookupA pid app.process_id_map with
  | some i =>
    match app.processes[i]? with
    | some p => { app with processes := app.processes.set i (ingestThread tid l p) }
    | none => app
  | none =>
    { app with
      process_id_map := (pid, app.processes.length) :: app.process_id_map,
      processes := app.processes ++ [⟨pid, [(tid, 0)], [⟨tid, [l]⟩]⟩] }

/-- Full per-record action of `handle_stream` after decoding
(main.rs:391-435): store the entry, then — if no thread is selected yet —
select process `cid` (the connection counter from `main.rs:207`, not the
index of the new process!) and thread 0. -/
def handleRecord (cid : Nat) (pid : Int) (tid : Nat) (l : Log) (app : App) : App :=
  let a := ingestStore pid tid l app
  if a.thread = none then { a with process := some cid, thread := some 0 } else a

/-- Stored log constructed in main.rs:392-397, with `Duration::new`
normalization of the nanosecond field. -/
def mkLog (d : LogData) (msg : List Nat) : Log :=
  ⟨d.secs + d.nanos / 1000000000, d.nanos % 1000000000, d.level, msg⟩

/-- One whole record processed by `handle_stream` on connection `cid`:
decode (a failure is a reader panic, `none`) then store and auto-select. -/
def serverStep (cid : Nat) (bs : List Nat) (app : App) : Option App :=
  match decodeRecord bs with
  | some (d, msg) => some (handleRecord cid d.pid d.pthread (mkLog d msg) app)
  | none => none

/-- App::next_process (main.rs:79-92).  The `none` fallthrough branches mark
where the source would panic (`% 0` or an out-of-range index). -/
def nextProcess (app : App) : App :=
  match app.process with
  | none => app
  | some p =>
    let np := (p + 1) % app.processes.length
    let app1 := { app with process := some np }
    match app1.processes[np]? with
    | none => app1
    | some proc =>
      if proc.threads.isEmpty then app1
      else
        let app2 := { app1 with thread := some 0 }
        match proc.threads[0]? with
        | some t0 => if t0.log.isEmpty then app2 else { app2 with log := 0 }
        | none => app2

/-- App::previous_process (main.rs:94-111). -/
def previousProcess (app : App) : App :=
  match app.process with
  | none => app
  | some p =>
    let np := if p > 0 then p - 1 else app.processes.length - 1
    let app1 := { app with process := some np }
    match app1.processes[np]? with
    | none => app1
    | some proc =>
      if proc.threads.isEmpty then app1
      else
        let app2 := { app1 with thread := some 0 }
        match proc.threads[0]? with
        | some t0 => if t0.log.isEmpty then app2 else { app2 with log := 0 }
        | none => app2

/-- App::next_thread (main.rs:113-128).  Note that `self.log` is reset only
when the newly selected lane is non-empty. -/
def nextThread (app : App) : App :=
  match app.thread with
  | none => app
  | some t =>
    match app.process with
    | none => app
    | some p =>
      match app.processes[p]? with
      | none => app
      | some proc =>
        let nt := (t + 1) % proc.threads.length
        let app1 := { app with thread := some nt }
        match proc.threads[nt]? with
        | some th => if th.log.isEmpty then app1 else { app1 with log := 0 }
        | none => app1

/-- App::previous_thread (main.rs:130-149). -/
def previousThread (app : App) : App :=
  match app.thread with
  | none => app
  | some t =>
    match app.process with
    | none => app
    | some p =>
      match app.processes[p]? with
      | none => app
      | some proc =>
        let nt := if t > 0 then t - 1 else proc.threads.length - 1
        let app1 := { app with thread := some nt }
        match proc.threads[nt]? with
        | some th => if th.log.isEmpty then app1 else { app1 with log := 0 }
        | none => app1

/-- App::next_log (main.rs:151-157). -/
def nextLog (app : App) : App :=
  match app.process, app.thread with
  | some p, some t =>
    match app.processes[p]? with
    | some proc =>
      match proc.threads[t]? with
      | some th => if app.log < th.log.length then { app with log := app.log + 1 } else app
      | none => app
    | none => app
  | _, _ => app

/-- App::previous_log (main.rs:159-163). -/
def previousLog (app : App) : App :=
  if app.log > 0 then { app with log := app.log - 1 } else app

/-- App states reachable from startup by record ingestion (any connection id)
and the six key-driven navigation operations (main.rs:220-231). -/
inductive Reachable : App → Prop
  | init : Reachable App.new
  | ingest {a : App} (cid : Nat) (pid : Int) (tid : Nat) (l : Log) :
      Reachable a → Reachable (handleRecord cid pid tid l a)
  | nav_np {a : App} : Reachable a → Reachable (nextProcess a)
  | nav_pp {a : App} : Reachable a → Reachable (previousProcess a)
  | nav_nt {a : App} : Reachable a → Reachable (nextThread a)
  | nav_pt {a : App} : Reachable a → Reachable (previousThread a)
  | nav_nl {a : App} : Reachable a → Reachable (nextLog a)
  | nav_pl {a : App} : Reachable a → Reachable (previousLog a)

/-- Every process group holds at least one lane and every lane at least one
entry. -/
def nonEmptyStore (app : App) : Bool :=
  app.processes.all fun p =>
    !p.threads.isEmpty && p.threads.all fun t => !t.log.isEmpty

/-- Well-formedness of one process group: `thread_id_map` and `threads` agree
in both directions. -/
def ProcWF (p : Process) : Prop :=
  (∀ tid j, lookupA tid p.thread_id_map = some j →
    ∃ t, p.threads[j]? = some t ∧ t.id = tid) ∧
  (∀ j t, p.threads[j]? = some t → lookupA t.id p.thread_id_map = some j)

/-- Well-formedness of the store: `process_id_map` and `processes` agree in
both directions, and each group is itself well formed. -/
def StoreWF (app : App) : Prop :=
  (∀ pid i, lookupA pid app.process_id_map = some i →
    ∃ p, app.processes[i]? = some p ∧ p.id = pid) ∧
  (∀ i p, app.processes[i]? = some p → lookupA p.id app.process_id_map = some i) ∧
  (∀ p ∈ app.processes, ProcWF p)

/-- The group a pid is routed to, if any. -/
def procOf (app : App) (pid : Int) : Option Process :=
  match lookupA pid app.process_id_map with
  | some i => app.processes[i]?
  | none => none

/-- The entries of the lane of a (pid, tid) pair, if present. -/
def laneOf (app : App) (pid : Int) (tid : Nat) : Option (List Log) :=
  match procOf app pid with
  | some p =>
    match lookupA tid p.thread_id_map with
    | some j => (p.threads[j]?).map Thread.log
    | none => none
  | none => none

/-- Number of lanes of the group a pid is routed to (0 when absent). -/
def numLanes (app : App) (pid : Int) : Nat :=
  match procOf app pid with
  | some p => p.threads.length
  | none => 0

/-- Outcome of the blocking `write_all` on the client socket. -/
inductive WriteResult
  | ok
  | err
deriving Repr, DecidableEq

/-- Observable outcome of one `Logger::log` call: the record was filtered
out, the bytes were written, or the thread panicked. -/
inductive EmitOutcome
  | skipped
  | sent (bytes : List Nat)
  | panicked
deriving Repr, DecidableEq

/-- Client emission, `Logger::log` (lib.rs:67-94): if the record's level
passes the `enabled` filter (lib.rs:63-65, `Level ≤ LevelFilter` compares
the usize discriminants), serialize header and message and write them; a
failed write hits the `unwrap()` on lib.rs:92, which panics the calling
thread — no error value is ever returned. -/
def logMethod (logLevel : Nat) (d : LogData) (msg : List Nat)
    (w : WriteResult) : EmitOutcome :=
  if d.level ≤ logLevel then
    match w with
    | .ok => .sent (encodeHeader d ++ msg)
    | .err => .panicked
  else .skipped

/-- Bytes accumulated in the 40-byte header buffer of `handle_stream`
(main.rs:370-374) after the initial non-blocking read and `n` further
wait-then-read cycles, when the k-th `read` call returns `reads k` bytes.  A
`read` never returns more than the free space of the buffer slice it is
given. -/
def headerIndexAfter (reads : Nat → Nat) : Nat → Nat
  | 0 => min (reads 0) headerSize
  | n + 1 =>
    let i := headerIndexAfter reads n
    i + min (reads (n + 1)) (headerSize - i)

/-- A read source whose every call returns 0 bytes: the peer has closed the
connection cleanly, so each `read` reports end-of-stream as `Ok(0)`. -/
def eofReads : Nat → Nat := fun _ => 0

/-- The loop guard of main.rs:371 is satisfied (the header is complete)
after `n` cycles. -/
def headerComplete (reads : Nat → Nat) (n : Nat) : Prop :=
  headerSize ≤ headerIndexAfter reads n

instance (reads : Nat → Nat) (n : Nat) : Decidable (headerComplete reads n) := by
  unfold headerComplete; infer_instance

/-- The lane (entry list) a tid is routed to inside one process group. -/
def procLane (tid : Nat) (p : Process) : Option (List Log) :=
  match lookupA tid p.thread_id_map with
  | some j => (p.threads[j]?).map Thread.log
  | none => none

/-- Sample entry used for concrete evaluations. -/
def sampleLog : Log := ⟨5, 6, 3, [104, 105]⟩

/-- Sample header whose fields are all in range (level 3 = Info). -/
def sampleData : LogData := ⟨1700000000, 500000000, 1234, 77, 2, 3⟩

/-- Header with nanos = 1.5e9 ≥ 10⁹ and an empty message. -/
def badNanosData : LogData := ⟨10, 1500000000, 100, 7, 0, 3⟩

/-- Header with nanos = 2e9 ≥ 10⁹ and length = 32 MiB > 16 MiB. -/
def oversizeData : LogData := ⟨1700000000, 2000000000, 1234, 77, 33554432, 3⟩

/-- A process group with a populated lane 0 and an empty lane 1. -/
def emptyLaneProc : Process :=
  ⟨100, [(7, 0), (8, 1)], [⟨7, [sampleLog]⟩, ⟨8, []⟩]⟩

/-- App state whose selected process has an empty second lane and a non-zero
scroll offset. -/
def emptyLaneApp : App := ⟨[(100, 0)], [emptyLaneProc], some 0, some 0, 5⟩

/-- A process group with two populated lanes. -/
def twoLaneProc : Process :=
  ⟨100, [(7, 0), (8, 1)], [⟨7, [sampleLog]⟩, ⟨8, [sampleLog]⟩]⟩

/-- App state with two populated lanes, lane 1 selected, offset 5. -/
def twoLaneApp : App := ⟨[(100, 0)], [twoLaneProc], some 0, some 1, 5⟩

theorem toLE_length (w v : Nat) : (toLE w v).length = w := by
  induction w generalizing v with
  | zero => rfl
  | succ w ih => simp [toLE, ih]

theorem fromLE_toLE (w v : Nat) : fromLE (toLE w v) = v % 256 ^ w := by
  induction w generalizing v with
  | zero => simp [toLE, fromLE, Nat.mod_one]
  | succ w ih =>
    rw [toLE, fromLE, ih, pow_succ']
    rw [Nat.mod_mul]

theorem fromLE_toLE_of_lt {w v : Nat} (h : v < 256 ^ w) : fromLE (toLE w v) = v := by
  rw [fromLE_toLE, Nat.mod_eq_of_lt h]


theorem encodeHeader_length (d : LogData) : (encodeHeader d).length = headerSize := by
  simp [encodeHeader, pidBytes, toLE_length, headerSize]


theorem decodePid_pidBytes {p : Int} (h1 : -2147483648 ≤ p) (h2 : p < 2147483648) :
    decodePid (fromLE (pidBytes p)) = p := by
  have h0 : (0 : Int) ≤ p % 4294967296 := Int.emod_nonneg p (by norm_num)
  have hlt : p % 4294967296 < 4294967296 := Int.emod_lt_of_pos p (by norm_num)
  have hN : (p % 4294967296).toNat < 256 ^ 4 := by
    have : (256 : Nat) ^ 4 = 4294967296 := by norm_num
    omega
  rw [pidBytes, fromLE_toLE_of_lt hN, decodePid]
  split <;> omega

theorem decodeHeader_encodeHeader (d : LogData) (hr : InRange d)
    (hlevel1 : 1 ≤ d.level) (hlevel5 : d.level ≤ 5) :
    decodeHeader (encodeHeader d) = some d := by
  obtain ⟨hs, hn, hp1, hp2, ht, hl, hv⟩ := hr
  have hA : (toLE 8 d.secs).length = 8 := toLE_length _ _
  have hB : (toLE 4 d.nanos).length = 4 := toLE_length _ _
  have hC : (pidBytes d.pid).length = 4 := toLE_length _ _
  have hD : (toLE 8 d.pthread).length = 8 := toLE_length _ _
  have hE : (toLE 8 d.length).length = 8 := toLE_length _ _
  have p8 : (256 : Nat) ^ 8 = 18446744073709551616 := by norm_num
  have p4 : (256 : Nat) ^ 4 = 4294967296 := by norm_num
  have hsecs : fromLE (toLE 8 d.secs) = d.secs := fromLE_toLE_of_lt (by omega)
  have hnanos : fromLE (toLE 4 d.nanos) = d.nanos := fromLE_toLE_of_lt (by omega)
  have hpth : fromLE (toLE 8 d.pthread) = d.pthread := fromLE_toLE_of_lt (by omega)
  have hlen : fromLE (toLE 8 d.length) = d.length := fromLE_toLE_of_lt (by omega)
  have hlev : fromLE (toLE 8 d.level) = d.level := fromLE_toLE_of_lt (by omega)
  have hpid : decodePid (fromLE (pidBytes d.pid)) = d.pid := decodePid_pidBytes hp1 hp2
  rw [decodeHeader, encodeHeader_length, if_pos rfl]
  rw [show encodeHeader d = toLE 8 d.secs ++ (toLE 4 d.nanos ++ (pidBytes d.pid ++
    (toLE 8 d.pthread ++ (toLE 8 d.length ++ toLE 8 d.level)))) from rfl]
  simp only [List.take_left' hA, List.drop_left' hA, List.take_left' hB,
    List.drop_left' hB, List.take_left' hC, List.drop_left' hC,
    List.take_left' hD, List.drop_left' hD, List.take_left' hE,
    List.drop_left' hE, hsecs, hnanos, hpth, hlen, hlev, hpid]
  rw [if_pos ⟨hlevel1, hlevel5⟩]

theorem decodeRecord_encode (d : LogData) (msg : List Nat) (hr : InRange d)
    (hlevel1 : 1 ≤ d.level) (hlevel5 : d.level ≤ 5)
    (hlen : d.length = msg.length) (hutf : utf8Valid msg = true) :
    decodeRecord (encode d msg) = some (d, msg) := by
  have hhl : (encodeHeader d).length = headerSize := encodeHeader_length d
  rw [decodeRecord, encode, List.take_left' hhl,
    decodeHeader_encodeHeader d hr hlevel1 hlevel5]
  simp only [List.drop_left' hhl]
  rw [if_pos (le_of_eq hlen), hlen, List.take_length, if_pos hutf]


theorem lt_length_of_getElem? {α : Type} {l : List α} {j : Nat} {a : α}
    (h : l[j]? = some a) : j < l.length := by
  by_contra hle
  push_neg at hle
  simp [List.getElem?_eq_none hle] at h

theorem getElem?_set_self_of_getElem? {α : Type} {l : List α} {j : Nat} {a : α}
    (h : l[j]? = some a) (b : α) : (l.set j b)[j]? = some b := by
  have := lt_length_of_getElem? h
  simp [this]

theorem laneOf_eq_procLane (app : App) (pid : Int) (tid : Nat) :
    laneOf app pid tid =
      match procOf app pid with
      | some p => procLane tid p
      | none => none := by
  unfold laneOf procLane
  rcases procOf app pid with _ | p <;> rfl

theorem ingestThread_id (tid : Nat) (l : Log) (p : Process) :
    (ingestThread tid l p).id = p.id := by
  unfold ingestThread
  split
  · split <;> rfl
  · rfl

theorem ingestThread_stable (tid : Nat) (l : Log) (p : Process)
    {j : Nat} {t : Thread} (h : p.threads[j]? = some t) :
    ∃ t', (ingestThread tid l p).threads[j]? = some t' ∧ t'.id = t.id := by
  unfold ingestThread
  split
  · rename_i j₀ hm
    split
    · rename_i t₀ hg
      by_cases hj : j₀ = j
      · subst hj
        rw [hg] at h
        cases h
        exact ⟨{ t with log := t.log ++ [l] },
          getElem?_set_self_of_getElem? hg _, rfl⟩
      · exact ⟨t, (List.getElem?_set_ne hj).trans h, rfl⟩
    · exact ⟨t, h, rfl⟩
  · exact ⟨t, (List.getElem?_append_left (lt_length_of_getElem? h)).trans h, rfl⟩

theorem getElem?_append_singleton {α : Type} (l : List α) (a : α) :
    (l ++ [a])[l.length]? = some a := by
  simp

theorem ProcWF_ingestThread (tid : Nat) (l : Log) {p : Process} (hWF : ProcWF p) :
    ProcWF (ingestThread tid l p) := by
  obtain ⟨hfwd, hbwd⟩ := hWF
  unfold ingestThread
  split
  · rename_i j₀ hm
    split
    · rename_i t₀ hg
      constructor
      · intro tid' j' hl
        obtain ⟨u, hu, hid⟩ := hfwd tid' j' hl
        by_cases hj : j₀ = j'
        · subst hj
          rw [hg] at hu
          cases hu
          exact ⟨{ t₀ with log := t₀.log ++ [l] },
            getElem?_set_self_of_getElem? hg _, hid⟩
        · exact ⟨u, (List.getElem?_set_ne hj).trans hu, hid⟩
      · intro j' t' hget
        by_cases hj : j₀ = j'
        · subst hj
          rw [getElem?_set_self_of_getElem? hg] at hget
          cases hget
          exact hbwd j₀ t₀ hg
        · rw [List.getElem?_set_ne hj] at hget
          exact hbwd j' t' hget
    · exact ⟨hfwd, hbwd⟩
  · rename_i hm
    constructor
    · intro tid' j' hl
      by_cases htid : tid = tid'
      · have hr : lookupA tid' ((tid, p.threads.length) :: p.thread_id_map) =
            some p.threads.length := by
          simp [lookupA, htid]
        rw [hr] at hl
        cases hl
        exact ⟨⟨tid, [l]⟩, getElem?_append_singleton _ _, htid⟩
      · have hr : lookupA tid' ((tid, p.threads.length) :: p.thread_id_map) =
            lookupA tid' p.thread_id_map := by
          simp [lookupA, htid]
        rw [hr] at hl
        obtain ⟨u, hu, hid⟩ := hfwd tid' j' hl
        exact ⟨u, (List.getElem?_append_left (lt_length_of_getElem? hu)).trans hu, hid⟩
    · intro j' t' hget
      have hget' : (p.threads ++ [(⟨tid, [l]⟩ : Thread)])[j']? = some t' := hget
      show lookupA t'.id ((tid, p.threads.length) :: p.thread_id_map) = some j'
      by_cases hlt : j' < p.threads.length
      · rw [List.getElem?_append_left hlt] at hget'
        have hold := hbwd j' t' hget'
        have hne : tid ≠ t'.id := by
          intro he
          rw [he, hold] at hm
          cases hm
        simpa [lookupA, hne] using hold
      · push_neg at hlt
        rw [List.getElem?_append_right hlt] at hget'
        rcases Nat.lt_or_ge (j' - p.threads.length) 1 with hz | hz
        · have hz0 : j' - p.threads.length = 0 := by omega
          rw [hz0] at hget'
          cases hget'
          have hj : j' = p.threads.length := by omega
          subst hj
          simp [lookupA]
        · rw [List.getElem?_eq_none (by simpa using hz)] at hget'
          cases hget'

theorem ingestThread_lane_self {p : Process} (hWF : ProcWF p) (tid : Nat) (l : Log) :
    procLane tid (ingestThread tid l p) = some ((procLane tid p).getD [] ++ [l]) := by
  obtain ⟨hfwd, hbwd⟩ := hWF
  rcases hm : lookupA tid p.thread_id_map with _ | j
  · simp [procLane, ingestThread, hm, lookupA, getElem?_append_singleton]
  · obtain ⟨t, hg, hid⟩ := hfwd tid j hm
    simp [procLane, ingestThread, hm, hg, getElem?_set_self_of_getElem? hg]

theorem ingestThread_lane_other {p : Process} (hWF : ProcWF p) {tid tid' : Nat}
    (hne : tid' ≠ tid) (l : Log) :
    procLane tid' (ingestThread tid l p) = procLane tid' p := by
  obtain ⟨hfwd, hbwd⟩ := hWF
  have hne' : ¬ tid = tid' := fun he => hne he.symm
  rcases hm : lookupA tid p.thread_id_map with _ | j
  · rcases hl : lookupA tid' p.thread_id_map with _ | j'
    · simp [procLane, ingestThread, hm, hl, lookupA, hne']
    · obtain ⟨u, hu, hid⟩ := hfwd tid' j' hl
      simp [procLane, ingestThread, hm, hl, lookupA, hne',
        List.getElem?_append_left (lt_length_of_getElem? hu)]
  · obtain ⟨t, hg, hid⟩ := hfwd tid j hm
    rcases hl : lookupA tid' p.thread_id_map with _ | j'
    · simp [procLane, ingestThread, hm, hg, hl]
    · obtain ⟨u, hu, huid⟩ := hfwd tid' j' hl
      have hjne : j ≠ j' := by
        intro he
        subst he
        rw [hg] at hu
        cases hu
        exact hne (huid ▸ hid)
      simp [procLane, ingestThread, hm, hg, hl, List.getElem?_set_ne hjne]

theorem ingestThread_length {p : Process} (hWF : ProcWF p) (tid : Nat) (l : Log) :
    (ingestThread tid l p).threads.length =
      p.threads.length + (if (procLane tid p).isSome then 0 else 1) := by
  obtain ⟨hfwd, hbwd⟩ := hWF
  rcases hm : lookupA tid p.thread_id_map with _ | j
  · simp [ingestThread, procLane, hm]
  · obtain ⟨t, hg, hid⟩ := hfwd tid j hm
    simp [ingestThread, procLane, hm, hg]

theorem handleRecord_processes (cid : Nat) (pid : Int) (tid : Nat) (l : Log) (app : App) :
    (handleRecord cid pid tid l app).processes = (ingestStore pid tid l app).processes := by
  cases h : (ingestStore pid tid l app).thread <;> simp [handleRecord, h]

theorem handleRecord_process_id_map (cid : Nat) (pid : Int) (tid : Nat) (l : Log)
    (app : App) :
    (handleRecord cid pid tid l app).process_id_map =
      (ingestStore pid tid l app).process_id_map := by
  cases h : (ingestStore pid tid l app).thread <;> simp [handleRecord, h]

theorem ProcWF_singleton (pid : Int) (tid : Nat) (l : Log) :
    ProcWF ⟨pid, [(tid, 0)], [⟨tid, [l]⟩]⟩ := by
  constructor
  · intro tid' j hl
    by_cases htid : tid = tid'
    · have : some 0 = some j := by simpa [lookupA, htid] using hl
      cases this
      exact ⟨⟨tid, [l]⟩, rfl, htid⟩
    · simp [lookupA, htid] at hl
  · intro j t hget
    match j, hget with
    | 0, hget =>
      cases hget
      simp [lookupA]

theorem StoreWF_ingestStore {app : App} (hWF : StoreWF app)
    (pid : Int) (tid : Nat) (l : Log) : StoreWF (ingestStore pid tid l app) := by
  obtain ⟨hfwd, hbwd, hmem⟩ := hWF
  unfold ingestStore
  split
  · rename_i i hm
    split
    · rename_i p hg
      refine ⟨?_, ?_, ?_⟩
      · intro pid' i' hl
        obtain ⟨q, hq, hqid⟩ := hfwd pid' i' hl
        by_cases hi : i = i'
        · subst hi
          rw [hg] at hq
          cases hq
          exact ⟨ingestThread tid l p, getElem?_set_self_of_getElem? hg _,
            (ingestThread_id tid l p).trans hqid⟩
        · exact ⟨q, (List.getElem?_set_ne hi).trans hq, hqid⟩
      · intro i' q hget
        by_cases hi : i = i'
        · subst hi
          rw [getElem?_set_self_of_getElem? hg] at hget
          cases hget
          rw [ingestThread_id]
          exact hbwd i p hg
        · rw [List.getElem?_set_ne hi] at hget
          exact hbwd i' q hget
      · intro q hq
        rcases List.mem_or_eq_of_mem_set hq with hold | rfl
        · exact hmem q hold
        · exact ProcWF_ingestThread tid l (hmem p (List.getElem?_mem hg))
    · exact ⟨hfwd, hbwd, hmem⟩
  · rename_i hm
    refine ⟨?_, ?_, ?_⟩
    · intro pid' i' hl
      by_cases hpid : pid = pid'
      · have hr : lookupA pid' ((pid, app.processes.length) :: app.process_id_map) =
            some app.processes.length := by
          simp [lookupA, hpid]
        have hl' : some app.processes.length = some i' := hr ▸ hl
        cases hl'
        exact ⟨⟨pid, [(tid, 0)], [⟨tid, [l]⟩]⟩, getElem?_append_singleton _ _, hpid⟩
      · have hr : lookupA pid' ((pid, app.processes.length) :: app.process_id_map) =
            lookupA pid' app.process_id_map := by
          simp [lookupA, hpid]
        have hl' := hr ▸ hl
        obtain ⟨q, hq, hqid⟩ := hfwd pid' i' hl'
        exact ⟨q, (List.getElem?_append_left (lt_length_of_getElem? hq)).trans hq, hqid⟩
    · intro i' q hget
      have hget' : (app.processes ++
          [(⟨pid, [(tid, 0)], [⟨tid, [l]⟩]⟩ : Process)])[i']? = some q := hget
      show lookupA q.id ((pid, app.processes.length) :: app.process_id_map) = some i'
      by_cases hlt : i' < app.processes.length
      · rw [List.getElem?_append_left hlt] at hget'
        have hold := hbwd i' q hget'
        have hne : pid ≠ q.id := by
          intro he
          rw [he, hold] at hm
          cases hm
        simpa [lookupA, hne] using hold
      · push_neg at hlt
        rw [List.getElem?_append_right hlt] at hget'
        rcases Nat.lt_or_ge (i' - app.processes.length) 1 with hz | hz
        · have hz0 : i' - app.processes.length = 0 := by omega
          rw [hz0] at hget'
          cases hget'
          have hi : i' = app.processes.length := by omega
          subst hi
          simp [lookupA]
        · rw [List.getElem?_eq_none (by simpa using hz)] at hget'
          cases hget'
    · intro q hq
      rcases List.mem_append.mp hq with hold | hnew
      · exact hmem q hold
      · rcases List.mem_singleton.mp hnew with rfl
        exact ProcWF_singleton pid tid l

theorem procOf_ingestStore_self {app : App} (hWF : StoreWF app)
    (pid : Int) (tid : Nat) (l : Log) :
    procOf (ingestStore pid tid l app) pid =
      some (match procOf app pid with
            | some p => ingestThread tid l p
            | none => ⟨pid, [(tid, 0)], [⟨tid, [l]⟩]⟩) := by
  obtain ⟨hfwd, hbwd, hmem⟩ := hWF
  rcases hm : lookupA pid app.process_id_map with _ | i
  · simp [procOf, ingestStore, hm, lookupA, getElem?_append_singleton]
  · obtain ⟨p, hg, hid⟩ := hfwd pid i hm
    simp [procOf, ingestStore, hm, hg, getElem?_set_self_of_getElem? hg]

theorem procOf_ingestStore_other {app : App} (hWF : StoreWF app)
    {pid pid' : Int} (hne : pid' ≠ pid) (tid : Nat) (l : Log) :
    procOf (ingestStore pid tid l app) pid' = procOf app pid' := by
  obtain ⟨hfwd, hbwd, hmem⟩ := hWF
  have hne' : ¬ pid = pid' := fun he => hne he.symm
  rcases hm : lookupA pid app.process_id_map with _ | i
  · rcases hl : lookupA pid' app.process_id_map with _ | i'
    · simp [procOf, ingestStore, hm, hl, lookupA, hne']
    · obtain ⟨q, hq, hqid⟩ := hfwd pid' i' hl
      simp [procOf, ingestStore, hm, hl, lookupA, hne',
        List.getElem?_append_left (lt_length_of_getElem? hq)]
  · obtain ⟨p, hg, hid⟩ := hfwd pid i hm
    rcases hl : lookupA pid' app.process_id_map with _ | i'
    · simp [procOf, ingestStore, hm, hg, hl]
    · obtain ⟨q, hq, hqid⟩ := hfwd pid' i' hl
      have hine : i ≠ i' := by
        intro he
        subst he
        rw [hg] at hq
        cases hq
        exact hne (hqid ▸ hid)
      simp [procOf, ingestStore, hm, hg, hl, List.getElem?_set_ne hine]

theorem procOf_wf {app : App} (hWF : StoreWF app) {pid : Int} {p : Process}
    (h : procOf app pid = some p) : ProcWF p := by
  obtain ⟨hfwd, hbwd, hmem⟩ := hWF
  unfold procOf at h
  rcases hm : lookupA pid app.process_id_map with _ | i
  · rw [hm] at h
    cases h
  · rw [hm] at h
    exact hmem p (List.getElem?_mem h)

theorem laneOf_ingestStore_self {app : App} (hWF : StoreWF app)
    (pid : Int) (tid : Nat) (l : Log) :
    laneOf (ingestStore pid tid l app) pid tid =
      some ((laneOf app pid tid).getD [] ++ [l]) := by
  rw [laneOf_eq_procLane, laneOf_eq_procLane, procOf_ingestStore_self hWF pid tid l]
  rcases hp : procOf app pid with _ | p
  · simp [procLane, lookupA]
  · have hpwf : ProcWF p := procOf_wf hWF hp
    simpa using ingestThread_lane_self hpwf tid l

theorem laneOf_ingestStore_other {app : App} (hWF : StoreWF app)
    {pid pid' : Int} {tid tid' : Nat} (hne : pid' ≠ pid ∨ tid' ≠ tid) (l : Log) :
    laneOf (ingestStore pid tid l app) pid' tid' = laneOf app pid' tid' := by
  rw [laneOf_eq_procLane, laneOf_eq_procLane]
  by_cases hpid : pid' = pid
  · subst hpid
    have htid : tid' ≠ tid := by
      rcases hne with h | h
      · exact absurd rfl h
      · exact h
    rw [procOf_ingestStore_self hWF pid' tid l]
    rcases hp : procOf app pid' with _ | p
    · have h2 : ¬ tid = tid' := fun he => htid he.symm
      simp [procLane, lookupA, h2]
    · have hpwf : ProcWF p := procOf_wf hWF hp
      simpa using ingestThread_lane_other hpwf htid l
  · rw [procOf_ingestStore_other hWF hpid tid l]

theorem ingestStore_length {app : App} (hWF : StoreWF app)
    (pid : Int) (tid : Nat) (l : Log) :
    (ingestStore pid tid l app).processes.length =
      app.processes.length + (if (procOf app pid).isSome then 0 else 1) := by
  obtain ⟨hfwd, hbwd, hmem⟩ := hWF
  rcases hm : lookupA pid app.process_id_map with _ | i
  · simp [ingestStore, procOf, hm]
  · obtain ⟨p, hg, hid⟩ := hfwd pid i hm
    simp [ingestStore, procOf, hm, hg]

theorem numLanes_ingestStore {app : App} (hWF : StoreWF app)
    (pid : Int) (tid : Nat) (l : Log) :
    numLanes (ingestStore pid tid l app) pid =
      numLanes app pid + (if (laneOf app pid tid).isSome then 0 else 1) := by
  rw [numLanes, procOf_ingestStore_self hWF pid tid l, laneOf_eq_procLane]
  rcases hp : procOf app pid with _ | p
  · simp [numLanes, hp]
  · have hpwf : ProcWF p := procOf_wf hWF hp
    simp only [numLanes, hp]
    simpa using ingestThread_length hpwf tid l

theorem ingestStore_stable {app : App} (hWF : StoreWF app)
    (pid : Int) (tid : Nat) (l : Log) {i : Nat} {p : Process}
    (h : app.processes[i]? = some p) :
    ∃ p' : Process, (ingestStore pid tid l app).processes[i]? = some p' ∧ p'.id = p.id ∧
      ∀ (j : Nat) (t : Thread), p.threads[j]? = some t →
        ∃ t' : Thread, p'.threads[j]? = some t' ∧ t'.id = t.id := by
  obtain ⟨hfwd, hbwd, hmem⟩ := hWF
  unfold ingestStore
  split
  · rename_i i₀ hm
    split
    · rename_i q hg
      by_cases hi : i₀ = i
      · subst hi
        rw [hg] at h
        cases h
        exact ⟨ingestThread tid l p, getElem?_set_self_of_getElem? hg _,
          ingestThread_id tid l p, fun j t ht => ingestThread_stable tid l p ht⟩
      · exact ⟨p, (List.getElem?_set_ne hi).trans h, rfl,
          fun j t ht => ⟨t, ht, rfl⟩⟩
    · exact ⟨p, h, rfl, fun j t ht => ⟨t, ht, rfl⟩⟩
  · exact ⟨p, (List.getElem?_append_left (lt_length_of_getElem? h)).trans h, rfl,
      fun j t ht => ⟨t, ht, rfl⟩⟩

theorem StoreWF_new : StoreWF App.new := by
  refine ⟨?_, ?_, ?_⟩
  · intro pid i hl
    cases hl
  · intro i p hget
    rw [show App.new.processes = [] from rfl] at hget
    simp at hget
  · intro p hp
    rw [show App.new.processes = [] from rfl] at hp
    simp at hp

theorem nextProcess_store (app : App) :
    (nextProcess app).processes = app.processes ∧
    (nextProcess app).process_id_map = app.process_id_map := by
  simp only [nextProcess]
  repeat' split
  all_goals exact ⟨rfl, rfl⟩

theorem previousProcess_store (app : App) :
    (previousProcess app).processes = app.processes ∧
    (previousProcess app).process_id_map = app.process_id_map := by
  simp only [previousProcess]
  repeat' split
  all_goals exact ⟨rfl, rfl⟩

theorem nextThread_store (app : App) :
    (nextThread app).processes = app.processes ∧
    (nextThread app).process_id_map = app.process_id_map := by
  simp only [nextThread]
  repeat' split
  all_goals exact ⟨rfl, rfl⟩

theorem previousThread_store (app : App) :
    (previousThread app).processes = app.processes ∧
    (previousThread app).process_id_map = app.process_id_map := by
  simp only [previousThread]
  repeat' split
  all_goals exact ⟨rfl, rfl⟩

theorem nextLog_store (app : App) :
    (nextLog app).processes = app.processes ∧
    (nextLog app).process_id_map = app.process_id_map := by
  simp only [nextLog]
  repeat' split
  all_goals exact ⟨rfl, rfl⟩

theorem previousLog_store (app : App) :
    (previousLog app).processes = app.processes ∧
    (previousLog app).process_id_map = app.process_id_map := by
  simp only [previousLog]
  repeat' split
  all_goals exact ⟨rfl, rfl⟩

theorem nonEmptyStore_congr {a b : App} (h : a.processes = b.processes) :
    nonEmptyStore a = nonEmptyStore b := by
  unfold nonEmptyStore
  rw [h]

theorem nonEmpty_ingestThread {p : Process}
    (hp : (!p.threads.isEmpty && p.threads.all fun t => !t.log.isEmpty) = true)
    (tid : Nat) (l : Log) :
    (!(ingestThread tid l p).threads.isEmpty &&
      (ingestThread tid l p).threads.all fun t => !t.log.isEmpty) = true := by
  rw [Bool.and_eq_true, List.all_eq_true] at hp
  obtain ⟨hne, hall⟩ := hp
  rw [Bool.and_eq_true, List.all_eq_true]
  unfold ingestThread
  split
  · rename_i j hm
    split
    · rename_i t hg
      constructor
      · simpa using hne
      · intro x hx
        rcases List.mem_or_eq_of_mem_set hx with hold | rfl
        · exact hall x hold
        · simp
    · exact ⟨hne, hall⟩
  · constructor
    · simp
    · intro x hx
      rcases List.mem_append.mp hx with hold | hnew
      · exact hall x hold
      · rcases List.mem_singleton.mp hnew with rfl
        simp

theorem nonEmptyStore_ingestStore {app : App} (h : nonEmptyStore app = true)
    (pid : Int) (tid : Nat) (l : Log) :
    nonEmptyStore (ingestStore pid tid l app) = true := by
  rw [nonEmptyStore, List.all_eq_true] at h ⊢
  intro q hq
  rcases hm : lookupA pid app.process_id_map with _ | i
  · rw [show (ingestStore pid tid l app).processes =
        app.processes ++ [⟨pid, [(tid, 0)], [⟨tid, [l]⟩]⟩] from by
      simp [ingestStore, hm]] at hq
    rcases List.mem_append.mp hq with hold | hnew
    · exact h q hold
    · rcases List.mem_singleton.mp hnew with rfl
      simp
  · rcases hg : app.processes[i]? with _ | p
    · rw [show (ingestStore pid tid l app).processes = app.processes from by
        simp [ingestStore, hm, hg]] at hq
      exact h q hq
    · rw [show (ingestStore pid tid l app).processes =
          app.processes.set i (ingestThread tid l p) from by
        simp [ingestStore, hm, hg]] at hq
      rcases List.mem_or_eq_of_mem_set hq with hold | rfl
      · exact h q hold
      · exact nonEmpty_ingestThread (h p (List.getElem?_mem hg)) tid l

theorem procOf_congr {a b : App} (h1 : a.process_id_map = b.process_id_map)
    (h2 : a.processes = b.processes) (pid : Int) : procOf a pid = procOf b pid := by
  unfold procOf
  rw [h1, h2]

theorem laneOf_congr {a b : App} (h1 : a.process_id_map = b.process_id_map)
    (h2 : a.processes = b.processes) (pid : Int) (tid : Nat) :
    laneOf a pid tid = laneOf b pid tid := by
  rw [laneOf_eq_procLane, laneOf_eq_procLane, procOf_congr h1 h2]

theorem numLanes_congr {a b : App} (h1 : a.process_id_map = b.process_id_map)
    (h2 : a.processes = b.processes) (pid : Int) : numLanes a pid = numLanes b pid := by
  unfold numLanes
  rw [procOf_congr h1 h2]

theorem StoreWF_congr {a b : App} (h1 : a.process_id_map = b.process_id_map)
    (h2 : a.processes = b.processes) : StoreWF a ↔ StoreWF b := by
  unfold StoreWF
  rw [h1, h2]

/-- C1 (counterexample): a header with nanos = 1.5·10⁹ ≥ 10⁹ is not rejected
by the server: decoding succeeds and `handle_stream` stores an entry for it
(the nanosecond overflow is silently carried into the seconds by
`Duration::new`), contradicting the claim that such a header yields
`MalformedHeader` and that no entry is stored. -/
theorem serverStep_stores_bad_nanos :
    decodeHeader (encodeHeader badNanosData) = some badNanosData ∧
    (serverStep 0 (encode badNanosData []) App.new).map
      (fun a => laneOf a 100 7) = some (some [⟨11, 500000000, 3, []⟩]) := by
  decide

/-- C1 (amended): the reader performs no range validation of the header:
every header whose fields fit their machine widths and whose level
discriminant is a defined `log::Level` value (1..5) decodes successfully,
regardless of how large `nanos` or `length` are — there is no nanosecond
check and no configured maximum length. -/
theorem decodeHeader_no_range_check (d : LogData) (hr : InRange d)
    (hlevel1 : 1 ≤ d.level) (hlevel5 : d.level ≤ 5) :
    decodeHeader (encodeHeader d) = some d :=
  decodeHeader_encodeHeader d hr hlevel1 hlevel5

/-- C1 (witness): a header with nanos = 2·10⁹ and length = 32 MiB is
accepted. -/
theorem decodeHeader_no_range_check_witness :
    decodeHeader (encodeHeader oversizeData) = some oversizeData :=
  decodeHeader_no_range_check oversizeData (by decide) (by decide) (by decide)

/-- C2: for every well-formed record (fields within machine widths, level in
1..5, nanos < 10⁹, message of exactly `length` bytes of valid UTF-8),
decoding the encoded byte sequence yields the record again, field for field
including the message. -/
theorem decode_encode_roundtrip (d : LogData) (msg : List Nat)
    (hsecs : d.secs < 18446744073709551616)
    (hnanos : d.nanos < 1000000000)
    (hpid1 : -2147483648 ≤ d.pid) (hpid2 : d.pid < 2147483648)
    (hpth : d.pthread < 18446744073709551616)
    (hlen64 : d.length < 18446744073709551616)
    (hlevel1 : 1 ≤ d.level) (hlevel5 : d.level ≤ 5)
    (hlen : d.length = msg.length) (hmsg : utf8Valid msg = true) :
    decodeRecord (encode d msg) = some (d, msg) :=
  decodeRecord_encode d msg
    ⟨hsecs, by omega, hpid1, hpid2, hpth, hlen64, by omega⟩
    hlevel1 hlevel5 hlen hmsg

/-- C2 (witness): round trip of a concrete Info record carrying "hi". -/
theorem decode_encode_roundtrip_witness :
    decodeRecord (encode sampleData [104, 105]) = some (sampleData, [104, 105]) :=
  decode_encode_roundtrip sampleData [104, 105] (by decide) (by decide) (by decide)
    (by decide) (by decide) (by decide) (by decide) (by decide) (by decide) (by decide)

/-- C3 (counterexample): the encoded header of a concrete record is 40 bytes,
not 33, and the level occupies the 8 bytes at offset 32 (little-endian
usize), not a single byte. -/
theorem encodeHeader_not_33_bytes :
    (encodeHeader sampleData).length = 40 ∧
    (encodeHeader sampleData).drop 32 = [3, 0, 0, 0, 0, 0, 0, 0] := by
  decide

/-- C3 (amended): the emitted wire header is exactly 40 bytes — the
host-native `repr(C)` layout of `LogData` on the 64-bit little-endian
target — with little-endian fields seconds at offset 0 (u64), nanos at 8
(u32), pid at 12 (i32), tid at 16 (u64), length at 24 (u64), and level at 32
as an 8-byte usize discriminant, with no padding. -/
theorem encodeHeader_layout (d : LogData) (hr : InRange d) :
    (encodeHeader d).length = 40 ∧
    fromLE ((encodeHeader d).take 8) = d.secs ∧
    fromLE (((encodeHeader d).drop 8).take 4) = d.nanos ∧
    decodePid (fromLE (((encodeHeader d).drop 12).take 4)) = d.pid ∧
    fromLE (((encodeHeader d).drop 16).take 8) = d.pthread ∧
    fromLE (((encodeHeader d).drop 24).take 8) = d.length ∧
    fromLE ((encodeHeader d).drop 32) = d.level := by
  obtain ⟨hs, hn, hp1, hp2, ht, hl, hv⟩ := hr
  have p8 : (256 : Nat) ^ 8 = 18446744073709551616 := by norm_num
  have p4 : (256 : Nat) ^ 4 = 4294967296 := by norm_num
  have hA : (toLE 8 d.secs).length = 8 := toLE_length _ _
  have hB : (toLE 4 d.nanos).length = 4 := toLE_length _ _
  refine ⟨encodeHeader_length d, ?_, ?_, ?_, ?_, ?_, ?_⟩
  · rw [show encodeHeader d = toLE 8 d.secs ++ (toLE 4 d.nanos ++ (pidBytes d.pid ++
      (toLE 8 d.pthread ++ (toLE 8 d.length ++ toLE 8 d.level)))) from rfl,
      List.take_left' hA]
    exact fromLE_toLE_of_lt (by omega)
  · rw [show encodeHeader d = toLE 8 d.secs ++ (toLE 4 d.nanos ++ (pidBytes d.pid ++
      (toLE 8 d.pthread ++ (toLE 8 d.length ++ toLE 8 d.level)))) from rfl,
      List.drop_left' hA, List.take_left' hB]
    exact fromLE_toLE_of_lt (by omega)
  · rw [show encodeHeader d = (toLE 8 d.secs ++ toLE 4 d.nanos) ++ (pidBytes d.pid ++
      (toLE 8 d.pthread ++ (toLE 8 d.length ++ toLE 8 d.level))) from by
        simp [encodeHeader, List.append_assoc],
      List.drop_left' (by simp [toLE_length]),
      List.take_left' (show (pidBytes d.pid).length = 4 by simp [pidBytes, toLE_length])]
    exact decodePid_pidBytes hp1 hp2
  · rw [show encodeHeader d = (toLE 8 d.secs ++ toLE 4 d.nanos ++ pidBytes d.pid) ++
      (toLE 8 d.pthread ++ (toLE 8 d.length ++ toLE 8 d.level)) from by
        simp [encodeHeader, List.append_assoc],
      List.drop_left' (by simp [toLE_length, pidBytes]),
      List.take_left' (toLE_length 8 _)]
    exact fromLE_toLE_of_lt (by omega)
  · rw [show encodeHeader d = (toLE 8 d.secs ++ toLE 4 d.nanos ++ pidBytes d.pid ++
      toLE 8 d.pthread) ++ (toLE 8 d.length ++ toLE 8 d.level) from by
        simp [encodeHeader, List.append_assoc],
      List.drop_left' (by simp [toLE_length, pidBytes]),
      List.take_left' (toLE_length 8 _)]
    exact fromLE_toLE_of_lt (by omega)
  · rw [show encodeHeader d = (toLE 8 d.secs ++ toLE 4 d.nanos ++ pidBytes d.pid ++
      toLE 8 d.pthread ++ toLE 8 d.length) ++ toLE 8 d.level from by
        simp [encodeHeader, List.append_assoc],
      List.drop_left' (by simp [toLE_length, pidBytes])]
    exact fromLE_toLE_of_lt (by omega)

/-- C3 (witness): layout facts evaluated at a concrete record. -/
theorem encodeHeader_layout_witness :
    (encodeHeader sampleData).length = 40 ∧
    fromLE ((encodeHeader sampleData).take 8) = sampleData.secs ∧
    fromLE (((encodeHeader sampleData).drop 8).take 4) = sampleData.nanos ∧
    decodePid (fromLE (((encodeHeader sampleData).drop 12).take 4)) = sampleData.pid ∧
    fromLE (((encodeHeader sampleData).drop 16).take 8) = sampleData.pthread ∧
    fromLE (((encodeHeader sampleData).drop 24).take 8) = sampleData.length ∧
    fromLE ((encodeHeader sampleData).drop 32) = sampleData.level :=
  encodeHeader_layout sampleData (by decide)

/-- C4: evaluation at the failing input.  The first-ever ingest into the
empty store, arriving on connection id 1, selects process cursor 1 — the
connection counter `id`, not index 0 of the single-process store — so the
cursor is out of range for `processes` (length 1) and the claimed
`process_cursor = 0` does not hold.  The thread cursor is set to 0 as
claimed. -/
theorem handleRecord_first_ingest_conn_id :
    (handleRecord 1 100 7 sampleLog App.new).process = some 1 ∧
    (handleRecord 1 100 7 sampleLog App.new).thread = some 0 ∧
    (handleRecord 1 100 7 sampleLog App.new).processes.length = 1 := by
  decide

/-- C5: on a well-formed store, ingesting a record appends it at the end of
the (pid, tid) lane (creating the lane as `[entry]` when absent), leaves
every other lane of every process unchanged, grows `processes` by one
exactly when pid is new, and grows the pid's lane count by one exactly when
the (pid, tid) lane is new. -/
theorem ingest_appends_lane {app : App} (hWF : StoreWF app)
    (cid : Nat) (pid : Int) (tid : Nat) (l : Log) :
    laneOf (handleRecord cid pid tid l app) pid tid =
      some ((laneOf app pid tid).getD [] ++ [l]) ∧
    (∀ (pid' : Int) (tid' : Nat), pid' ≠ pid ∨ tid' ≠ tid →
      laneOf (handleRecord cid pid tid l app) pid' tid' = laneOf app pid' tid') ∧
    (handleRecord cid pid tid l app).processes.length =
      app.processes.length + (if (procOf app pid).isSome then 0 else 1) ∧
    numLanes (handleRecord cid pid tid l app) pid =
      numLanes app pid + (if (laneOf app pid tid).isSome then 0 else 1) := by
  have hp := handleRecord_processes cid pid tid l app
  have hm := handleRecord_process_id_map cid pid tid l app
  refine ⟨?_, ?_, ?_, ?_⟩
  · rw [laneOf_congr hm hp]
    exact laneOf_ingestStore_self hWF pid tid l
  · intro pid' tid' hne
    rw [laneOf_congr hm hp]
    exact laneOf_ingestStore_other hWF hne l
  · rw [hp]
    exact ingestStore_length hWF pid tid l
  · rw [numLanes_congr hm hp]
    exact numLanes_ingestStore hWF pid tid l

/-- C5 (witness): first ingest into the empty store creates lane [entry]. -/
theorem ingest_appends_lane_witness :
    laneOf (handleRecord 0 100 7 sampleLog App.new) 100 7 =
      some ((laneOf App.new 100 7).getD [] ++ [sampleLog]) :=
  (ingest_appends_lane StoreWF_new 0 100 7 sampleLog).1

/-- C6: the agreement between index maps and vectors holds for the initial
store, holds in every reachable state, and one ingest step never moves or
re-identifies an existing position: every process keeps its index and its
pid, and every lane inside it keeps its index and its tid. -/
theorem store_index_invariant :
    StoreWF App.new ∧
    (∀ a : App, Reachable a → StoreWF a) ∧
    (∀ (app : App) (cid : Nat) (pid : Int) (tid : Nat) (l : Log), StoreWF app →
      ∀ (i : Nat) (p : Process), app.processes[i]? = some p →
        ∃ p' : Process, (handleRecord cid pid tid l app).processes[i]? = some p' ∧
          p'.id = p.id ∧
          ∀ (j : Nat) (t : Thread), p.threads[j]? = some t →
            ∃ t' : Thread, p'.threads[j]? = some t' ∧ t'.id = t.id) := by
  refine ⟨StoreWF_new, ?_, ?_⟩
  · intro a h
    induction h with
    | init => exact StoreWF_new
    | ingest cid pid tid l _ ih =>
      exact (StoreWF_congr (handleRecord_process_id_map cid pid tid l _)
        (handleRecord_processes cid pid tid l _)).mpr (StoreWF_ingestStore ih pid tid l)
    | nav_np _ ih =>
      exact (StoreWF_congr (nextProcess_store _).2 (nextProcess_store _).1).mpr ih
    | nav_pp _ ih =>
      exact (StoreWF_congr (previousProcess_store _).2 (previousProcess_store _).1).mpr ih
    | nav_nt _ ih =>
      exact (StoreWF_congr (nextThread_store _).2 (nextThread_store _).1).mpr ih
    | nav_pt _ ih =>
      exact (StoreWF_congr (previousThread_store _).2 (previousThread_store _).1).mpr ih
    | nav_nl _ ih =>
      exact (StoreWF_congr (nextLog_store _).2 (nextLog_store _).1).mpr ih
    | nav_pl _ ih =>
      exact (StoreWF_congr (previousLog_store _).2 (previousLog_store _).1).mpr ih
  · intro app cid pid tid l hWF i p h
    rw [handleRecord_processes cid pid tid l app]
    exact ingestStore_stable hWF pid tid l h

/-- C6 (witness): well-formedness of a concrete reachable store. -/
theorem store_index_invariant_witness :
    StoreWF (handleRecord 0 100 7 sampleLog App.new) :=
  store_index_invariant.2.1 (handleRecord 0 100 7 sampleLog App.new)
    (Reachable.ingest 0 100 7 sampleLog Reachable.init)

/-- C7 (counterexample): with two lanes where lane 1 is empty, cursor on
lane 0 and log offset 5, `next_thread` moves the cursor to lane 1 — a
change — but does not reset the log offset to 0, contradicting the claim
that the reset also happens when the newly selected lane is empty. -/
theorem nextThread_empty_lane_no_reset :
    (nextThread emptyLaneApp).thread = some 1 ∧
    emptyLaneApp.thread = some 0 ∧
    (nextThread emptyLaneApp).log = 5 := by
  decide

/-- C7 (amended): with a process and thread cursor set and in range,
`next_thread` and `previous_thread` move the thread cursor by +1 and −1
modulo the number of lanes of the selected process; the log offset is reset
to 0 exactly when the newly selected lane is non-empty (even if the cursor
did not change), and is left untouched when that lane is empty. -/
theorem thread_nav_cursor {app : App} {p t : Nat} {proc : Process}
    (hp : app.process = some p) (hg : app.processes[p]? = some proc)
    (ht : app.thread = some t) (htl : t < proc.threads.length) :
    (nextThread app).thread = some ((t + 1) % proc.threads.length) ∧
    (nextThread app).log =
      (match proc.threads[(t + 1) % proc.threads.length]? with
       | some th => if th.log.isEmpty then app.log else 0
       | none => app.log) ∧
    (previousThread app).thread =
      some ((t + proc.threads.length - 1) % proc.threads.length) ∧
    (previousThread app).log =
      (match proc.threads[(t + proc.threads.length - 1) % proc.threads.length]? with
       | some th => if th.log.isEmpty then app.log else 0
       | none => app.log) := by
  have hprev : (if t > 0 then t - 1 else proc.threads.length - 1) =
      (t + proc.threads.length - 1) % proc.threads.length := by
    rcases Nat.eq_zero_or_pos t with rfl | htpos
    · rw [if_neg (by omega)]
      rw [Nat.mod_eq_of_lt (by omega)]
      omega
    · rw [if_pos htpos]
      have he : t + proc.threads.length - 1 = (t - 1) + proc.threads.length := by omega
      rw [he, Nat.add_mod_right, Nat.mod_eq_of_lt (by omega)]
  refine ⟨?_, ?_, ?_, ?_⟩
  · simp only [nextThread, ht, hp, hg]
    rcases hth : proc.threads[(t + 1) % proc.threads.length]? with _ | th
    · simp [hth]
    · rcases hempty : th.log.isEmpty with _ | _ <;> simp [hth, hempty]
  · simp only [nextThread, ht, hp, hg]
    rcases hth : proc.threads[(t + 1) % proc.threads.length]? with _ | th
    · simp [hth]
    · rcases hempty : th.log.isEmpty with _ | _ <;> simp [hth, hempty]
  · simp only [previousThread, ht, hp, hg, hprev]
    rcases hth : proc.threads[(t + proc.threads.length - 1) % proc.threads.length]?
      with _ | th
    · simp [hth]
    · rcases hempty : th.log.isEmpty with _ | _ <;> simp [hth, hempty]
  · simp only [previousThread, ht, hp, hg, hprev]
    rcases hth : proc.threads[(t + proc.threads.length - 1) % proc.threads.length]?
      with _ | th
    · simp [hth]
    · rcases hempty : th.log.isEmpty with _ | _ <;> simp [hth, hempty]

/-- C7 (witness): both moves evaluated on a concrete two-lane state. -/
theorem thread_nav_cursor_witness :
    (nextThread twoLaneApp).thread = some ((1 + 1) % twoLaneProc.threads.length) ∧
    (nextThread twoLaneApp).log =
      (match twoLaneProc.threads[(1 + 1) % twoLaneProc.threads.length]? with
       | some th => if th.log.isEmpty then twoLaneApp.log else 0
       | none => twoLaneApp.log) ∧
    (previousThread twoLaneApp).thread =
      some ((1 + twoLaneProc.threads.length - 1) % twoLaneProc.threads.length) ∧
    (previousThread twoLaneApp).log =
      (match twoLaneProc.threads[(1 + twoLaneProc.threads.length - 1) %
          twoLaneProc.threads.length]? with
       | some th => if th.log.isEmpty then twoLaneApp.log else 0
       | none => twoLaneApp.log) :=
  @thread_nav_cursor twoLaneApp 0 1 twoLaneProc (by decide) (by decide) (by decide)
    (by decide)

/-- C8 (counterexample): at a concrete failing socket write the observable
outcome of `Logger::log` is a panic of the calling thread (the `unwrap` on
the write), not a returned `TransportFailed` error — no error-return outcome
exists in the client. -/
theorem log_write_failure_not_error :
    logMethod 5 sampleData [104, 105] WriteResult.err = EmitOutcome.panicked ∧
    EmitOutcome.panicked ≠ EmitOutcome.sent (encode sampleData [104, 105]) := by
  decide

/-- C8 (amended): whenever the record passes the level filter and the socket
write fails mid-stream, the client panics in the calling thread via the
`unwrap` on `write_all`; no error value is returned to the caller. -/
theorem log_write_failure_panics (logLevel : Nat) (d : LogData) (msg : List Nat)
    (henabled : d.level ≤ logLevel) :
    logMethod logLevel d msg WriteResult.err = EmitOutcome.panicked := by
  simp [logMethod, henabled]

/-- C8 (witness): a failing write of a concrete enabled record panics. -/
theorem log_write_failure_panics_witness :
    logMethod 3 sampleData [104] WriteResult.err = EmitOutcome.panicked :=
  log_write_failure_panics 3 sampleData [104] (by decide)

/-- C9: evaluation at the failing input.  When the peer closes cleanly at
byte 0 of a header, every subsequent `read` returns 0 bytes, so the header
buffer index of `handle_stream` stays at 0 after any number of wait/read
cycles and the header-completion guard (index ≥ 40) is never satisfied: the
reader loop never terminates — the reader blocks on the readiness wait
forever instead of reaching a terminal Closed state. -/
theorem header_loop_never_completes_on_eof :
    (∀ n : Nat, headerIndexAfter eofReads n = 0) ∧
    ¬ ∃ n : Nat, headerComplete eofReads n := by
  have hz : ∀ n : Nat, headerIndexAfter eofReads n = 0 := by
    intro n
    induction n with
    | zero => rfl
    | succ n ih => simp [headerIndexAfter, ih, eofReads]
  refine ⟨hz, ?_⟩
  rintro ⟨n, hn⟩
  rw [headerComplete, hz n] at hn
  exact absurd hn (by decide)

/-- C10: in every reachable state, every process group holds at least one
lane and every lane holds at least one entry: groups and lanes are only ever
created together with their first entry, and entries are never removed. -/
theorem reachable_store_nonempty {a : App} (h : Reachable a) :
    nonEmptyStore a = true := by
  induction h with
  | init => rfl
  | ingest cid pid tid l _ ih =>
    rw [nonEmptyStore_congr (handleRecord_processes cid pid tid l _)]
    exact nonEmptyStore_ingestStore ih pid tid l
  | nav_np _ ih =>
    rw [nonEmptyStore_congr (nextProcess_store _).1]
    exact ih
  | nav_pp _ ih =>
    rw [nonEmptyStore_congr (previousProcess_store _).1]
    exact ih
  | nav_nt _ ih =>
    rw [nonEmptyStore_congr (nextThread_store _).1]
    exact ih
  | nav_pt _ ih =>
    rw [nonEmptyStore_congr (previousThread_store _).1]
    exact ih
  | nav_nl _ ih =>
    rw [nonEmptyStore_congr (nextLog_store _).1]
    exact ih
  | nav_pl _ ih =>
    rw [nonEmptyStore_congr (previousLog_store _).1]
    exact ih

/-- C10 (witness): nonemptiness of a concrete reachable store. -/
theorem reachable_store_nonempty_witness :
    nonEmptyStore (handleRecord 0 100 7 sampleLog App.new) = true :=
  reachable_store_nonempty (Reachable.ingest 0 100 7 sampleLog Reachable.init)

end MPLogger
